import Mathlib

/-!
# Verification of the `JaxPEAKVAE` module (`scvi/module/_jaxpeakvae.py`)

A shallow embedding over `ℝ` of the PEAKVAE variational autoencoder core:
the encoder / decoder / depth-encoder networks, the region-factor parameter,
and the inference / generative / loss phases, together with theorems about
the loss algebra, numerical bounds and configuration wiring.

Arrays are embedded as `List ℝ` (one entry per feature / region / latent
dimension); a minibatch is a `List` of per-cell vectors.  Floating point
arithmetic is idealised as real arithmetic; `jnp.log`, `jnp.exp`, `jnp.sqrt`
become `Real.log`, `Real.exp`, `Real.sqrt`.
-/

noncomputable section

namespace ScviPeakVAE

/-- Dot product of two vectors (`jnp` row-by-vector product). -/
def dot (w x : List ℝ) : ℝ := (List.zipWith (· * ·) w x).sum

/-- `scvi.nn.Dense` / `flax.linen.Dense`: affine map `x ↦ W x + b`,
with `W` given row-wise (one row per output unit). -/
def dense (W : List (List ℝ)) (b : List ℝ) (x : List ℝ) : List ℝ :=
  List.zipWith (fun row bj => dot row x + bj) W b

/-- `jax.nn.leaky_relu` with its default negative slope `0.01`. -/
def leakyRelu (x : ℝ) : ℝ := if 0 ≤ x then x else 0.01 * x

/-- `flax.linen.sigmoid`: `1 / (1 + exp (-x))`. -/
def sigmoid (x : ℝ) : ℝ := 1 / (1 + Real.exp (-x))

/-- Mean of the entries of a vector. -/
def listMean (l : List ℝ) : ℝ := l.sum / l.length

/-- Biased variance of the entries of a vector. -/
def listVar (l : List ℝ) : ℝ := ((l.map (fun a => (a - listMean l) ^ 2)).sum) / l.length

/-- `flax.linen.LayerNorm` (default `epsilon = 1e-6`, learned scale `g` and
bias `b`): normalise over the feature axis, then rescale and shift. -/
def layerNorm (g b x : List ℝ) : List ℝ :=
  List.zipWith
    (fun gb xi => gb.1 * ((xi - listMean x) / Real.sqrt (listVar x + 1e-6)) + gb.2)
    (g.zip b) x

/-- Parameters and running statistics of one `flax.linen.BatchNorm` layer. -/
structure BatchNormParams where
  scale : List ℝ
  bias : List ℝ
  movingMean : List ℝ
  movingVar : List ℝ

/-- `flax.linen.BatchNorm` with `use_running_average = true` (evaluation
mode, default `epsilon = 1e-5`): normalise with the stored running
statistics, then rescale and shift.  (Training mode instead uses statistics
of the whole minibatch; the forward passes embedded below are the
evaluation-mode ones, which is the mode all mode-sensitive claims fix.) -/
def batchNormEval (p : BatchNormParams) (x : List ℝ) : List ℝ :=
  List.zipWith3
    (fun xi mv sb => sb.1 * ((xi - mv.1) / Real.sqrt (mv.2 + 1e-5)) + sb.2)
    x (p.movingMean.zip p.movingVar) (p.scale.zip p.bias)

/-- `flax.linen.Dropout`.  Flax returns the input unchanged when the rate is
zero or the layer runs deterministically; otherwise it keeps each unit with
probability `1 - rate` (the Bernoulli draw from the explicit dropout stream
is the `mask` argument) and rescales the kept units by `1 / (1 - rate)`. -/
def dropoutLayer (rate : ℝ) (deterministic : Bool) (mask : List Bool) (x : List ℝ) : List ℝ :=
  if rate = 0 ∨ deterministic then x
  else if rate = 1 then x.map (fun _ => 0)
  else List.zipWith (fun keep a => if keep then a / (1 - rate) else 0) mask x

/-- `jax.nn.one_hot` at a scalar index: entry `j` is `1` when `i = j` and `0`
otherwise; indices outside `[0, n)` (including negative ones) thus yield the
all-zero vector, exactly as `jax.nn.one_hot` does. -/
def oneHot (n : ℕ) (i : ℤ) : List ℝ :=
  (List.range n).map (fun (j : ℕ) => if i = (j : ℤ) then 1 else 0)

/-- Learned parameters of `FlaxEncoder`: two hidden blocks
(dense + layer-norm) and the two output heads (mean, log-variance). -/
structure EncoderParams where
  W1 : List (List ℝ)
  b1 : List ℝ
  g1 : List ℝ
  be1 : List ℝ
  W2 : List (List ℝ)
  b2 : List ℝ
  g2 : List ℝ
  be2 : List ℝ
  W3 : List (List ℝ)
  b3 : List ℝ
  W4 : List (List ℝ)
  b4 : List ℝ

/-- `FlaxEncoder.__call__`: `log1p` of the counts, two blocks of
dense → layer-norm → leaky-ReLU → dropout, then the mean head and the
variance head `exp (log_var)`.  `training` and the two dropout masks make
the explicit dropout randomness stream; in evaluation mode
(`training = false`) dropout is deterministic, i.e. the identity. -/
def FlaxEncoder.forward (P : EncoderParams) (rate : ℝ) (training : Bool)
    (m1 m2 : List Bool) (x : List ℝ) : List ℝ × List ℝ :=
  let xlog := x.map (fun v => Real.log (1 + v))
  let h1 := dense P.W1 P.b1 xlog
  let h2 := layerNorm P.g1 P.be1 h1
  let h3 := h2.map leakyRelu
  let h4 := dropoutLayer rate (!training) m1 h3
  let h5 := dense P.W2 P.b2 h4
  let h6 := layerNorm P.g2 P.be2 h5
  let h7 := h6.map leakyRelu
  let h8 := dropoutLayer rate (!training) m2 h7
  (dense P.W3 P.b3 h8, (dense P.W4 P.b4 h8).map Real.exp)

/-- Learned parameters of `FlaxDecoder`: five dense layers and two
batch-norm layers. -/
structure DecoderParams where
  W1 : List (List ℝ)
  b1 : List ℝ
  W2 : List (List ℝ)
  b2 : List ℝ
  W3 : List (List ℝ)
  b3 : List ℝ
  W4 : List (List ℝ)
  b4 : List ℝ
  W5 : List (List ℝ)
  b5 : List ℝ
  bn1 : BatchNormParams
  bn2 : BatchNormParams

/-- `FlaxDecoder.__call__` in evaluation mode (`training = false`):
the projections of `z` and of the batch one-hot are summed, batch-norm uses
running statistics, dropout is deterministic (the identity — the rate is
kept as an argument to mirror the construction), the batch projection is
re-injected additively before the second block (the skip connection), and a
final dense layer plus sigmoid bounds the output into `[0, 1]`. -/
def FlaxDecoder.forwardEval (P : DecoderParams) (rate : ℝ) (z batch : List ℝ) : List ℝ :=
  let h1 := List.zipWith (· + ·) (dense P.W1 P.b1 z) (dense P.W2 P.b2 batch)
  let h2 := batchNormEval P.bn1 h1
  let h3 := h2.map leakyRelu
  let h4 := dropoutLayer rate true [] h3
  let h5 := List.zipWith (· + ·) (dense P.W3 P.b3 h4) (dense P.W4 P.b4 batch)
  let h6 := batchNormEval P.bn2 h5
  let h7 := h6.map leakyRelu
  let h8 := dropoutLayer rate true [] h7
  (dense P.W5 P.b5 h8).map sigmoid

/-- The configuration surface of `JaxPEAKVAE`, with the source defaults. -/
structure Config where
  n_input : ℕ
  n_batch : ℕ
  n_hidden : ℕ := 128
  n_latent : ℕ := 30
  dropout_rate : ℝ := 0.0
  n_layers : ℕ := 1
  eps : ℝ := 1e-8
  region_factors : Bool := true

/-- What `JaxPEAKVAE.setup` fixes about the sub-modules: the dropout rate
each one is constructed with, and the initial region-factor parameter
(`zeros(n_input)` when enabled, absent when disabled). -/
structure SetupResult where
  encoderRate : ℝ
  decoderRate : ℝ
  dEncoderRate : ℝ
  rf : Option (List ℝ)

/-- `JaxPEAKVAE.setup`: the encoder receives the configured
`dropout_rate`; the decoder and the depth-encoder are constructed with
`dropout_rate = 0.0`; `rf` is the zero-initialised per-region parameter when
`region_factors` is enabled and absent (`None`) otherwise. -/
def JaxPEAKVAE.setup (cfg : Config) : SetupResult :=
  { encoderRate := cfg.dropout_rate
    decoderRate := 0.0
    dEncoderRate := 0.0
    rf := if cfg.region_factors then some (List.replicate cfg.n_input 0) else none }

/-- The learned state of a `JaxPEAKVAE` instance. -/
structure Params where
  enc : EncoderParams
  dec : DecoderParams
  dEnc : DecoderParams
  rf : Option (List ℝ)

/-- The dictionary returned by `JaxPEAKVAE.inference`: the posterior
`qz = Normal(qzLoc, qzScale)`, the reparameterised sample `z`, and the
depth-factor head output `d` (a one-entry vector, `n_output = 1`). -/
structure InferenceOutput where
  qzLoc : List ℝ
  qzScale : List ℝ
  z : List ℝ
  d : List ℝ

/-- `JaxPEAKVAE.inference` for one cell in evaluation mode:
encoder gives `(mean, var)`; `stddev = sqrt var + eps`; the batch index is
one-hot encoded and fed with the raw counts to the depth-encoder; `z` is the
reparameterised draw `mean + stddev * noise` where `noise` is the explicit
standard-normal stream (`n_samples = 1`). -/
def JaxPEAKVAE.inference (cfg : Config) (P : Params) (x : List ℝ) (batch_index : ℤ)
    (noise : List ℝ) : InferenceOutput :=
  let mv := FlaxEncoder.forward P.enc cfg.dropout_rate false [] [] x
  let stddev := mv.2.map (fun v => Real.sqrt v + cfg.eps)
  let batch := oneHot cfg.n_batch batch_index
  let d := FlaxDecoder.forwardEval P.dEnc 0.0 x batch
  let z := List.zipWith3 (fun m s e => m + s * e) mv.1 stddev noise
  { qzLoc := mv.1, qzScale := stddev, z := z, d := d }

/-- `JaxPEAKVAE.generative` for one cell in evaluation mode: the decoder
applied to the latent sample and the one-hot encoded batch index. -/
def JaxPEAKVAE.generative (cfg : Config) (P : Params) (z : List ℝ) (batch_index : ℤ) :
    List ℝ :=
  FlaxDecoder.forwardEval P.dec 0.0 z (oneHot cfg.n_batch batch_index)

/-- Binarised label: `(x > 0).astype(float32)`. -/
def binLabel (x : ℝ) : ℝ := if 0 < x then 1 else 0

/-- One region's term of the ε-stabilised binary cross-entropy:
`-label * log (pred + eps) - (1 - label) * log (1 - pred + eps)`. -/
def bceTerm (eps pred label : ℝ) : ℝ :=
  -label * Real.log (pred + eps) - (1 - label) * Real.log (1 - pred + eps)

/-- The predicted accessibility probabilities `preds = p * d * f`
(elementwise over regions; the per-cell scalar `d` broadcasts). -/
def predsList (p : List ℝ) (d : ℝ) (f : List ℝ) : List ℝ :=
  List.zipWith (fun pi fi => pi * d * fi) p f

/-- `JaxPEAKVAE.get_reconstruction_loss` for one cell: the BCE terms over
regions, summed (`.sum(-1)`), with the Python default `eps = 1e-8`. -/
def get_reconstruction_loss (p : List ℝ) (d : ℝ) (f x : List ℝ) (eps : ℝ := 1e-8) : ℝ :=
  (List.zipWith (bceTerm eps) (predsList p d f) (x.map binLabel)).sum

/-- `numpyro.distributions.kl_divergence (Normal (m, s)) (Normal (0, 1))`:
with `var_ratio = s ^ 2` and `t1 = m ^ 2` this is
`0.5 * (var_ratio + t1 - 1 - log var_ratio)`. -/
def klNormalStd (m s : ℝ) : ℝ := 0.5 * (s ^ 2 + m ^ 2 - 1 - Real.log (s ^ 2))

/-- Per-cell KL divergence to the standard normal prior, summed over the
latent dimensions (`.sum(-1)`). -/
def klCell (ms ss : List ℝ) : ℝ := (List.zipWith klNormalStd ms ss).sum

/-- The region factor used by the loss phase:
`f = sigmoid rf` when the parameter is present, and the scalar `1` —
which broadcasts over the `n_input` regions, i.e. acts as the all-ones
vector — when it is `None`. -/
def regionFactor (cfg : Config) (rf : Option (List ℝ)) : List ℝ :=
  match rf with
  | some v => v.map sigmoid
  | none => List.replicate cfg.n_input 1

/-- The structured result of the loss phase. -/
structure LossRecorder where
  loss : ℝ
  reconstruction_loss : List ℝ
  kl_local : List ℝ

/-- `JaxPEAKVAE.loss`: per-cell reconstruction losses and per-cell KL
divergences, and the total
`jnp.sum (reconstruction_loss.sum () + kl_weight * kl_div)` — note that the
scalar `reconstruction_loss.sum ()` broadcasts over the per-cell KL vector
before the outer sum, exactly as in the source.  The per-cell inputs are the
count rows `x`, the decoder outputs `px`, the per-cell depth scalars `d`
(the single entry of the depth head, broadcast over regions), and the
posterior parameters. -/
def JaxPEAKVAE.loss (cfg : Config) (P : Params) (x px : List (List ℝ)) (d : List ℝ)
    (qzLoc qzScale : List (List ℝ)) (kl_weight : ℝ) : LossRecorder :=
  let f := regionFactor cfg P.rf
  let rl := List.zipWith3 (fun pc dc xc => get_reconstruction_loss pc dc f xc) px d x
  let kl := List.zipWith klCell qzLoc qzScale
  { loss := (kl.map (fun k => rl.sum + kl_weight * k)).sum
    reconstruction_loss := rl
    kl_local := kl }

/-- A full forward pass over a minibatch in evaluation mode: inference per
cell, generative per cell, then the loss phase, with the latent-sampling
noise an explicit per-cell stream. -/
def JaxPEAKVAE.forwardPass (cfg : Config) (P : Params) (xs : List (List ℝ))
    (idxs : List ℤ) (noises : List (List ℝ)) (kl_weight : ℝ) : LossRecorder :=
  let infs := List.zipWith3 (fun x i nz => JaxPEAKVAE.inference cfg P x i nz) xs idxs noises
  let pxs := List.zipWith (fun inf i => JaxPEAKVAE.generative cfg P inf.z i) infs idxs
  let ds := infs.map (fun inf => inf.d.headD 0)
  JaxPEAKVAE.loss cfg P xs pxs ds (infs.map (fun inf => inf.qzLoc))
    (infs.map (fun inf => inf.qzScale)) kl_weight

/-! ## Concrete fixtures for witnesses and counterexamples -/

/-- A minimal configuration: one region, one batch category, one hidden
unit, one latent dimension (all other fields at their source defaults). -/
def cfg1 : Config := { n_input := 1, n_batch := 1, n_hidden := 1, n_latent := 1 }

/-- Zero-initialised encoder parameters for the 1-dimensional fixture
(layer-norm scale at its `ones` initialisation). -/
def encZero : EncoderParams :=
  { W1 := [[0]], b1 := [0], g1 := [1], be1 := [0]
    W2 := [[0]], b2 := [0], g2 := [1], be2 := [0]
    W3 := [[0]], b3 := [0], W4 := [[0]], b4 := [0] }

/-- Batch-norm parameters at their initialisation: unit scale, zero bias,
zero running mean, unit running variance. -/
def bnInit : BatchNormParams :=
  { scale := [1], bias := [0], movingMean := [0], movingVar := [1] }

/-- Zero-initialised decoder parameters for the 1-dimensional fixture. -/
def decZero : DecoderParams :=
  { W1 := [[0]], b1 := [0], W2 := [[0]], b2 := [0], W3 := [[0]], b3 := [0]
    W4 := [[0]], b4 := [0], W5 := [[0]], b5 := [0], bn1 := bnInit, bn2 := bnInit }

/-- A concrete parameter state with the region factor disabled. -/
def Pzero : Params := { enc := encZero, dec := decZero, dEnc := decZero, rf := none }

/-! ## Theorems -/

/-- **C10.** `JaxPEAKVAE.setup` constructs both the main decoder and the
depth-encoder with dropout rate `0.0` regardless of the configured
`dropout_rate`, a rate-`0` dropout layer is the identity in training and in
evaluation mode alike (for every mask), and the configured rate reaches
only the encoder. -/
theorem C10_decoder_dropout_identity (cfg : Config) :
    (JaxPEAKVAE.setup cfg).decoderRate = 0 ∧
    (JaxPEAKVAE.setup cfg).dEncoderRate = 0 ∧
    (JaxPEAKVAE.setup cfg).encoderRate = cfg.dropout_rate ∧
    ∀ (det : Bool) (mask : List Bool) (x : List ℝ), dropoutLayer 0 det mask x = x := by
  refine ⟨by norm_num [JaxPEAKVAE.setup], by norm_num [JaxPEAKVAE.setup], rfl,
    fun det mask x => ?_⟩
  simp [dropoutLayer]

/-- **C8.** Determinism of the forward pass: in the embedding every source
of randomness (the latent-sampling noise) is an explicit argument and
evaluation mode makes dropout deterministic, so two full forward passes
(inference, generative, loss) with identical parameters, inputs and
randomness streams return identical results. -/
theorem C8_forward_deterministic (cfgA cfgB : Config) (PA PB : Params)
    (xsA xsB : List (List ℝ)) (isA isB : List ℤ) (nsA nsB : List (List ℝ))
    (wA wB : ℝ) (h1 : cfgA = cfgB) (h2 : PA = PB) (h3 : xsA = xsB)
    (h4 : isA = isB) (h5 : nsA = nsB) (h6 : wA = wB) :
    JaxPEAKVAE.forwardPass cfgA PA xsA isA nsA wA
      = JaxPEAKVAE.forwardPass cfgB PB xsB isB nsB wB := by
  subst h1; subst h2; subst h3; subst h4; subst h5; subst h6; rfl

/-- Witness for C8 at a concrete one-cell input. -/
theorem C8_forward_deterministic_witness :
    JaxPEAKVAE.forwardPass cfg1 Pzero [[2]] [0] [[0]] 1
      = JaxPEAKVAE.forwardPass cfg1 Pzero [[2]] [0] [[0]] 1 :=
  C8_forward_deterministic cfg1 cfg1 Pzero Pzero [[2]] [[2]] [0] [0] [[0]] [[0]] 1 1
    rfl rfl rfl rfl rfl rfl

/-- **C9.** The loss phase never reads the configured `eps`: its result is
unchanged when the configuration's `eps` field is replaced, because the call
to `get_reconstruction_loss` leaves the `eps` argument at its hard-coded
Python default `1e-8`; the configured `eps` enters only the inference
phase, as the additive floor of `stddev = sqrt var + eps`. -/
theorem C9_eps_only_stddev_floor (cfg : Config) (e : ℝ) (P : Params)
    (x px : List (List ℝ)) (d : List ℝ) (qzLoc qzScale : List (List ℝ)) (w : ℝ)
    (xc : List ℝ) (bi : ℤ) (nz : List ℝ) :
    JaxPEAKVAE.loss { cfg with eps := e } P x px d qzLoc qzScale w
      = JaxPEAKVAE.loss cfg P x px d qzLoc qzScale w ∧
    (∀ (pc : List ℝ) (dc : ℝ) (fc xcc : List ℝ),
      get_reconstruction_loss pc dc fc xcc = get_reconstruction_loss pc dc fc xcc 1e-8) ∧
    (JaxPEAKVAE.inference { cfg with eps := e } P xc bi nz).qzScale
      = (FlaxEncoder.forward P.enc cfg.dropout_rate false [] [] xc).2.map
          (fun v => Real.sqrt v + e) :=
  ⟨rfl, fun _ _ _ _ => rfl, rfl⟩

/-- **C5.** The encoder's returned variance (the `exp` of the log-variance
head) is strictly positive for every parameter state, dropout rate, mode,
mask and input; in the inference phase `stddev = sqrt var + eps`, so every
entry of the posterior's scale is strictly positive whenever `eps ≥ 0`. -/
theorem C5_variance_stddev_pos (cfg : Config) (P : Params) (x : List ℝ) (bi : ℤ)
    (noise : List ℝ) (heps : 0 ≤ cfg.eps) :
    (∀ (rate : ℝ) (tr : Bool) (m1 m2 : List Bool),
      ∀ v ∈ (FlaxEncoder.forward P.enc rate tr m1 m2 x).2, 0 < v) ∧
    (JaxPEAKVAE.inference cfg P x bi noise).qzScale
      = (FlaxEncoder.forward P.enc cfg.dropout_rate false [] [] x).2.map
          (fun v => Real.sqrt v + cfg.eps) ∧
    ∀ s ∈ (JaxPEAKVAE.inference cfg P x bi noise).qzScale, 0 < s := by
  refine ⟨?_, rfl, ?_⟩
  · intro rate tr m1 m2 v hv
    simp only [FlaxEncoder.forward, List.mem_map] at hv
    obtain ⟨a, _, rfl⟩ := hv
    exact Real.exp_pos a
  · intro s hs
    simp only [JaxPEAKVAE.inference, FlaxEncoder.forward, List.mem_map] at hs
    obtain ⟨a, ha, rfl⟩ := hs
    obtain ⟨b, _, rfl⟩ := ha
    have h1 : 0 < Real.sqrt (Real.exp b) := Real.sqrt_pos.mpr (Real.exp_pos b)
    linarith

/-- Witness for C5 at the concrete fixture. -/
theorem C5_variance_stddev_pos_witness :
    0 ≤ cfg1.eps ∧
    ((∀ (rate : ℝ) (tr : Bool) (m1 m2 : List Bool),
      ∀ v ∈ (FlaxEncoder.forward Pzero.enc rate tr m1 m2 [2]).2, 0 < v) ∧
    (JaxPEAKVAE.inference cfg1 Pzero [2] 0 [0]).qzScale
      = (FlaxEncoder.forward Pzero.enc cfg1.dropout_rate false [] [] [2]).2.map
          (fun v => Real.sqrt v + cfg1.eps) ∧
    ∀ s ∈ (JaxPEAKVAE.inference cfg1 Pzero [2] 0 [0]).qzScale, 0 < s) :=
  ⟨by norm_num [cfg1], C5_variance_stddev_pos cfg1 Pzero [2] 0 [0] (by norm_num [cfg1])⟩

/-- On positives, `log t = t - 1` forces `t = 1`. -/
lemma log_eq_sub_one_imp {t : ℝ} (ht : 0 < t) (h : Real.log t = t - 1) : t = 1 := by
  by_contra hne
  exact absurd h (ne_of_lt (Real.log_lt_sub_one_of_pos ht hne))

/-- Gaussian KL to the standard normal is non-negative. -/
lemma klNormalStd_nonneg {m s : ℝ} (hs : 0 < s) : 0 ≤ klNormalStd m s := by
  have hs2 : 0 < s ^ 2 := by positivity
  have hlog := Real.log_le_sub_one_of_pos hs2
  have hm : 0 ≤ m ^ 2 := sq_nonneg m
  unfold klNormalStd
  nlinarith

/-- Gaussian KL to the standard normal vanishes exactly at the standard
normal. -/
lemma klNormalStd_eq_zero_iff {m s : ℝ} (hs : 0 < s) :
    klNormalStd m s = 0 ↔ m = 0 ∧ s = 1 := by
  constructor
  · intro h
    have hs2 : 0 < s ^ 2 := by positivity
    have hlog := Real.log_le_sub_one_of_pos hs2
    have hm2 : m ^ 2 = 0 := by
      unfold klNormalStd at h
      nlinarith [sq_nonneg m]
    have hm : m = 0 := sq_eq_zero_iff.mp hm2
    refine ⟨hm, ?_⟩
    have hlogeq : Real.log (s ^ 2) = s ^ 2 - 1 := by
      unfold klNormalStd at h
      nlinarith
    have hs21 : s ^ 2 = 1 := log_eq_sub_one_imp hs2 hlogeq
    have hfac : (s - 1) * (s + 1) = 0 := by nlinarith
    rcases mul_eq_zero.mp hfac with h1 | h2
    · linarith
    · linarith
  · rintro ⟨rfl, rfl⟩
    unfold klNormalStd
    norm_num

/-- A sum of per-dimension KL terms is non-negative. -/
lemma klCell_nonneg : ∀ (ms ss : List ℝ), (∀ s ∈ ss, 0 < s) → 0 ≤ klCell ms ss := by
  intro ms
  induction ms with
  | nil => intro ss h; simp [klCell]
  | cons m mt ih =>
    intro ss h
    cases ss with
    | nil => simp [klCell]
    | cons s st =>
      have hs : 0 < s := h s (by simp)
      have hst : ∀ a ∈ st, 0 < a := fun a ha => h a (by simp [ha])
      have h1 : 0 ≤ klNormalStd m s := klNormalStd_nonneg hs
      have h2 : 0 ≤ klCell mt st := ih st hst
      simp only [klCell, List.zipWith_cons_cons, List.sum_cons]
      have : klCell mt st = (List.zipWith klNormalStd mt st).sum := rfl
      linarith [this ▸ h2]

/-- **C7.** The per-cell KL divergence between `qz = Normal(mean, stddev)`
and the standard normal prior, summed over the latent dimensions, is zero
if and only if in every dimension the mean is exactly `0` and the stddev is
exactly `1` (given the invariant that stddevs are positive). -/
theorem C7_kl_zero_iff (ms ss : List ℝ) (h : ∀ s ∈ ss, 0 < s) :
    klCell ms ss = 0 ↔ ∀ pr ∈ ms.zip ss, pr.1 = 0 ∧ pr.2 = 1 := by
  induction ms generalizing ss with
  | nil => simp [klCell]
  | cons m mt ih =>
    cases ss with
    | nil => simp [klCell]
    | cons s st =>
      have hs : 0 < s := h s (by simp)
      have hst : ∀ a ∈ st, 0 < a := fun a ha => h a (by simp [ha])
      have hKnn : 0 ≤ klNormalStd m s := klNormalStd_nonneg hs
      have hCnn : 0 ≤ klCell mt st := klCell_nonneg mt st hst
      have hsplit : klCell (m :: mt) (s :: st) = klNormalStd m s + klCell mt st := by
        simp [klCell]
      rw [hsplit, add_eq_zero_iff_of_nonneg hKnn hCnn, klNormalStd_eq_zero_iff hs,
        ih st hst]
      simp [List.forall_mem_cons]

/-- Witness for C7 at a one-dimensional latent space. -/
theorem C7_kl_zero_iff_witness :
    (∀ s ∈ [(1 : ℝ)], 0 < s) ∧
    (klCell [0] [1] = 0 ↔ ∀ pr ∈ List.zip [(0 : ℝ)] [(1 : ℝ)], pr.1 = 0 ∧ pr.2 = 1) :=
  ⟨by norm_num, C7_kl_zero_iff [0] [1] (by norm_num)⟩

/-- Summing a broadcast scalar against a vector:
`Σᵢ (S + w * kᵢ) = n * S + w * Σᵢ kᵢ`. -/
lemma sum_map_scalar_add (l : List ℝ) (S w : ℝ) :
    (l.map (fun k => S + w * k)).sum = l.length * S + w * l.sum := by
  induction l with
  | nil => simp
  | cons a t ih =>
    simp only [List.map_cons, List.sum_cons, List.length_cons, ih]
    push_cast
    ring

/-- **C1 (refuted: code bug).** On a two-cell batch the loss phase returns
`2 * Σ reconstruction + kl_weight * Σ KL`, not
`Σ reconstruction + kl_weight * Σ KL`: in
`jnp.sum(reconstruction_loss.sum() + kl_weight * kl_div)` the scalar
`reconstruction_loss.sum()` broadcasts across the per-cell KL vector before
the outer sum, so the reconstruction term is counted once per cell.  At the
concrete batch below (counts `[[1], [1]]`, `ρ = [[0], [0]]`, `d = [0, 0]`,
posterior exactly standard normal, `kl_weight = 1`) the code returns twice
the value the claim specifies. -/
theorem C1_loss_broadcast_bug :
    (JaxPEAKVAE.loss cfg1 Pzero [[1], [1]] [[0], [0]] [0, 0] [[0], [0]] [[1], [1]] 1).loss
      = 2 * ((JaxPEAKVAE.loss cfg1 Pzero [[1], [1]] [[0], [0]] [0, 0] [[0], [0]] [[1], [1]] 1).reconstruction_loss).sum
        + 1 * ((JaxPEAKVAE.loss cfg1 Pzero [[1], [1]] [[0], [0]] [0, 0] [[0], [0]] [[1], [1]] 1).kl_local).sum ∧
    (JaxPEAKVAE.loss cfg1 Pzero [[1], [1]] [[0], [0]] [0, 0] [[0], [0]] [[1], [1]] 1).loss
      ≠ ((JaxPEAKVAE.loss cfg1 Pzero [[1], [1]] [[0], [0]] [0, 0] [[0], [0]] [[1], [1]] 1).reconstruction_loss).sum
        + 1 * ((JaxPEAKVAE.loss cfg1 Pzero [[1], [1]] [[0], [0]] [0, 0] [[0], [0]] [[1], [1]] 1).kl_local).sum := by
  have hlog : Real.log 1e-8 < 0 := Real.log_neg (by norm_num) (by norm_num)
  constructor
  · simp [JaxPEAKVAE.loss, regionFactor, get_reconstruction_loss, predsList, bceTerm,
      binLabel, klCell, klNormalStd, cfg1, Pzero, List.zipWith3]
    ring
  · simp [JaxPEAKVAE.loss, regionFactor, get_reconstruction_loss, predsList, bceTerm,
      binLabel, klCell, klNormalStd, cfg1, Pzero, List.zipWith3]
    norm_num

/-- **C3.** The per-cell reconstruction loss computed by
`get_reconstruction_loss` equals the ε-stabilised binary cross-entropy
`-Σ_regions (label * log (preds + eps) + (1 - label) * log (1 - preds + eps))`
with `preds = ρ * d * f` elementwise and `label = 1` exactly when the raw
count is positive. -/
theorem C3_reconstruction_formula (p : List ℝ) (d : ℝ) (f x : List ℝ) (eps : ℝ) (n : ℕ)
    (hp : p.length = n) (hf : f.length = n) (hx : x.length = n) :
    get_reconstruction_loss p d f x eps =
      -(∑ i ∈ Finset.range n,
        ((if 0 < x.getD i 0 then (1 : ℝ) else 0)
            * Real.log (p.getD i 0 * d * f.getD i 0 + eps)
          + (1 - if 0 < x.getD i 0 then (1 : ℝ) else 0)
            * Real.log (1 - p.getD i 0 * d * f.getD i 0 + eps))) := by
  induction n generalizing p f x with
  | zero =>
    rw [List.length_eq_zero] at hp hf hx
    subst hp; subst hf; subst hx
    simp [get_reconstruction_loss, predsList]
  | succ n ih =>
    cases p with
    | nil => simp at hp
    | cons a pt =>
      cases f with
      | nil => simp at hf
      | cons b ft =>
        cases x with
        | nil => simp at hx
        | cons c xt =>
          simp only [List.length_cons] at hp hf hx
          have hpn : pt.length = n := by omega
          have hfn : ft.length = n := by omega
          have hxn : xt.length = n := by omega
          have hrec : get_reconstruction_loss (a :: pt) d (b :: ft) (c :: xt) eps
              = bceTerm eps (a * d * b) (binLabel c)
                + get_reconstruction_loss pt d ft xt eps := by
            simp [get_reconstruction_loss, predsList]
          rw [hrec, ih pt ft xt hpn hfn hxn, Finset.sum_range_succ']
          simp only [List.getD_cons_succ, List.getD_cons_zero, bceTerm, binLabel]
          ring

/-- Witness for C3 at a one-region cell. -/
theorem C3_reconstruction_formula_witness :
    ([(1 : ℝ)].length = 1) ∧
    get_reconstruction_loss [(1 : ℝ)] 1 [1] [1] 1 =
      -(∑ i ∈ Finset.range 1,
        ((if 0 < [(1 : ℝ)].getD i 0 then (1 : ℝ) else 0)
            * Real.log ([(1 : ℝ)].getD i 0 * 1 * [(1 : ℝ)].getD i 0 + 1)
          + (1 - if 0 < [(1 : ℝ)].getD i 0 then (1 : ℝ) else 0)
            * Real.log (1 - [(1 : ℝ)].getD i 0 * 1 * [(1 : ℝ)].getD i 0 + 1))) :=
  ⟨rfl, C3_reconstruction_formula [1] 1 [1] [1] 1 1 rfl rfl rfl⟩

/-- Both stabilised logarithms of a valid probability are bounded:
`-log (1 + eps) ≤ -log (q + eps) ≤ -log eps` for `q ∈ [0, 1]`, `eps > 0`. -/
lemma neg_log_bounds {eps q : ℝ} (heps : 0 < eps) (h0 : 0 ≤ q) (h1 : q ≤ 1) :
    -Real.log (1 + eps) ≤ -Real.log (q + eps) ∧ -Real.log (q + eps) ≤ -Real.log eps := by
  constructor
  · have h := Real.log_le_log (by linarith : (0 : ℝ) < q + eps)
      (by linarith : q + eps ≤ 1 + eps)
    linarith
  · have h := Real.log_le_log heps (by linarith : eps ≤ q + eps)
    linarith

/-- Each ε-stabilised BCE term lies between `-log (1 + eps)` and `-log eps`
whenever the prediction is a valid probability. -/
lemma bceTerm_bounds {eps q : ℝ} (heps : 0 < eps) (h0 : 0 ≤ q) (h1 : q ≤ 1) (c : ℝ) :
    -Real.log (1 + eps) ≤ bceTerm eps q (binLabel c) ∧
    bceTerm eps q (binLabel c) ≤ -Real.log eps := by
  unfold bceTerm binLabel
  by_cases hc : 0 < c
  · have h := neg_log_bounds heps h0 h1
    simp only [if_pos hc]
    constructor <;> nlinarith [h.1, h.2]
  · have h := neg_log_bounds heps (by linarith : (0 : ℝ) ≤ 1 - q)
      (by linarith : 1 - q ≤ 1)
    simp only [if_neg hc]
    constructor <;> nlinarith [h.1, h.2]

/-- Bounds for the whole reconstruction loss, by induction over regions. -/
lemma recon_bounds_aux (eps d : ℝ) (heps : 0 < eps) (hd0 : 0 ≤ d) (hd1 : d ≤ 1) :
    ∀ (p f x : List ℝ), (∀ a ∈ p, 0 ≤ a ∧ a ≤ 1) → (∀ a ∈ f, 0 ≤ a ∧ a ≤ 1) →
      p.length = x.length → f.length = x.length →
      (∀ q ∈ predsList p d f, 0 ≤ q ∧ q ≤ 1) ∧
      (x.length : ℝ) * (-Real.log (1 + eps)) ≤ get_reconstruction_loss p d f x eps ∧
      get_reconstruction_loss p d f x eps ≤ (x.length : ℝ) * (-Real.log eps) := by
  intro p
  induction p with
  | nil =>
    intro f x _ _ hpl hfl
    have hx : x = [] := by
      have : x.length = 0 := by simpa using hpl.symm
      exact List.length_eq_zero.mp this
    subst hx
    simp [get_reconstruction_loss, predsList]
  | cons a pt ih =>
    intro f x hp hf hpl hfl
    cases x with
    | nil => simp at hpl
    | cons c xt =>
      cases f with
      | nil => simp at hfl
      | cons b ft =>
        simp only [List.length_cons] at hpl hfl
        have ha := hp a (by simp)
        have hb := hf b (by simp)
        have hpt : ∀ q ∈ pt, 0 ≤ q ∧ q ≤ 1 := fun q hq => hp q (by simp [hq])
        have hft : ∀ q ∈ ft, 0 ≤ q ∧ q ≤ 1 := fun q hq => hf q (by simp [hq])
        have ihz := ih ft xt hpt hft (by omega) (by omega)
        have hq0 : 0 ≤ a * d * b := mul_nonneg (mul_nonneg ha.1 hd0) hb.1
        have had : a * d ≤ 1 := by nlinarith [ha.1, ha.2]
        have hq1 : a * d * b ≤ 1 := by nlinarith [hb.1, hb.2, mul_nonneg ha.1 hd0]
        have hterm := bceTerm_bounds heps hq0 hq1 c
        refine ⟨?_, ?_, ?_⟩
        · intro q hq
          simp only [predsList, List.zipWith_cons_cons, List.mem_cons] at hq
          rcases hq with rfl | hq
          · exact ⟨hq0, hq1⟩
          · exact ihz.1 q hq
        · have hsplit : get_reconstruction_loss (a :: pt) d (b :: ft) (c :: xt) eps
              = bceTerm eps (a * d * b) (binLabel c)
                + get_reconstruction_loss pt d ft xt eps := by
            simp [get_reconstruction_loss, predsList]
          rw [hsplit]
          have := ihz.2.1
          simp only [List.length_cons]
          push_cast
          linarith [hterm.1]
        · have hsplit : get_reconstruction_loss (a :: pt) d (b :: ft) (c :: xt) eps
              = bceTerm eps (a * d * b) (binLabel c)
                + get_reconstruction_loss pt d ft xt eps := by
            simp [get_reconstruction_loss, predsList]
          rw [hsplit]
          have := ihz.2.2
          simp only [List.length_cons]
          push_cast
          linarith [hterm.2]

/-- **C4 counterexample.** At `ρ = d = f = 1` on a single region with a
positive count, the ε-stabilised reconstruction loss equals
`-log (1 + 1e-8)`, which is strictly negative: the claimed non-negativity
fails (the ε added inside `log (preds + eps)` pushes the argument above `1`
when `preds = 1`). -/
theorem C4_negative_loss_counterexample :
    get_reconstruction_loss [1] 1 [1] [1] < 0 := by
  simp only [get_reconstruction_loss, predsList, bceTerm, binLabel,
    List.zipWith_cons_cons, List.zipWith_nil_right, List.map_cons, List.map_nil,
    List.sum_cons, List.sum_nil]
  norm_num
  exact Real.log_pos (by norm_num)

/-- **C4 (amended).** For `ρ`, `d`, `f` entrywise in `[0, 1]` and `eps > 0`,
every entry of `preds = ρ * d * f` lies in `[0, 1]`, and the reconstruction
loss over `n` regions is finite in the precise sense that it is bounded:
`-n * log (1 + eps) ≤ loss ≤ -n * log eps`.  (It is *not* non-negative in
general — see the counterexample — but its negative part is at most
`n * log (1 + eps) ≤ n * eps`.) -/
theorem C4_preds_and_loss_bounds (p : List ℝ) (d : ℝ) (f x : List ℝ) (eps : ℝ) (n : ℕ)
    (heps : 0 < eps) (hd0 : 0 ≤ d) (hd1 : d ≤ 1)
    (hp : ∀ a ∈ p, 0 ≤ a ∧ a ≤ 1) (hf : ∀ a ∈ f, 0 ≤ a ∧ a ≤ 1)
    (hpn : p.length = n) (hfn : f.length = n) (hxn : x.length = n) :
    (∀ q ∈ predsList p d f, 0 ≤ q ∧ q ≤ 1) ∧
    (n : ℝ) * (-Real.log (1 + eps)) ≤ get_reconstruction_loss p d f x eps ∧
    get_reconstruction_loss p d f x eps ≤ (n : ℝ) * (-Real.log eps) := by
  have h := recon_bounds_aux eps d heps hd0 hd1 p f x hp hf (by omega) (by omega)
  rw [hxn] at h
  exact h

/-- Witness for the amended C4 at a concrete valid input. -/
theorem C4_preds_and_loss_bounds_witness :
    ((0 : ℝ) < 1 ∧ (0 : ℝ) ≤ 1 ∧ (1 : ℝ) ≤ 1) ∧
    ((∀ q ∈ predsList [(1 : ℝ)] 1 [1], 0 ≤ q ∧ q ≤ 1) ∧
    ((1 : ℕ) : ℝ) * (-Real.log (1 + 1)) ≤ get_reconstruction_loss [(1 : ℝ)] 1 [1] [1] 1 ∧
    get_reconstruction_loss [(1 : ℝ)] 1 [1] [1] 1 ≤ ((1 : ℕ) : ℝ) * (-Real.log 1)) :=
  ⟨⟨by norm_num, by norm_num, by norm_num⟩,
    C4_preds_and_loss_bounds [1] 1 [1] [1] 1 1 (by norm_num) (by norm_num) (by norm_num)
      (by norm_num) (by norm_num) rfl rfl rfl⟩

/-- **C2 counterexample.** The core performs no boundary validation.  With
`n_batch = 1` the out-of-range batch index `1` is silently one-hot encoded
as the all-zero vector (`jax.nn.one_hot` semantics) and the inference phase
still returns an ordinary numeric result — with zero-initialised parameters
the depth factor comes out as `sigmoid 0 = 1/2`; likewise a negative count
`-3` flows into the loss phase, where it is silently binarised to label `0`
and the BCE evaluates normally.  No validation error is raised anywhere,
refuting the fail-fast claim. -/
theorem C2_no_failfast_counterexample :
    oneHot 1 1 = [0] ∧
    (JaxPEAKVAE.inference cfg1 Pzero [2] 1 [0]).d = [1 / 2] ∧
    get_reconstruction_loss [1 / 2] 1 [1] [-3] = -Real.log (1 - 1 / 2 + 1e-8) := by
  have h1 : oneHot 1 1 = [0] := by
    unfold oneHot
    rw [List.range_succ, List.range_zero]
    norm_num
  refine ⟨h1, ?_, ?_⟩
  · simp only [JaxPEAKVAE.inference, cfg1, Pzero, decZero, bnInit]
    rw [h1]
    norm_num [FlaxDecoder.forwardEval, dense, dot, batchNormEval, dropoutLayer,
      leakyRelu, sigmoid, List.zipWith3, Real.exp_zero]
  · norm_num [get_reconstruction_loss, predsList, bceTerm, binLabel]

/-- **C2 (amended).** The core performs no domain validation at the
boundary: a batch index outside `[0, n_batch)` is silently one-hot encoded
as the all-zero vector, and a negative count is silently binarised exactly
like a zero count; the computations run on such inputs instead of failing
(validation belongs to the excluded data-registry layer). -/
theorem C2_out_of_domain_silent (n : ℕ) (i : ℤ) (h : i < 0 ∨ (n : ℤ) ≤ i) (xr : ℝ)
    (hx : xr < 0) :
    oneHot n i = List.replicate n 0 ∧ binLabel xr = binLabel 0 := by
  constructor
  · refine List.eq_replicate_iff.mpr ⟨?_, ?_⟩
    · unfold oneHot
      rw [List.length_map, List.length_range]
    · intro b hb
      unfold oneHot at hb
      rw [List.mem_map] at hb
      obtain ⟨j, hj, rfl⟩ := hb
      rw [List.mem_range] at hj
      have hne : ¬ i = (j : ℤ) := by omega
      rw [if_neg hne]
  · unfold binLabel
    rw [if_neg (by linarith), if_neg (by norm_num)]

/-- Witness for the amended C2 at `n_batch = 1`, index `1`, count `-1`. -/
theorem C2_out_of_domain_silent_witness :
    ((1 : ℤ) < 0 ∨ ((1 : ℕ) : ℤ) ≤ 1) ∧ (-1 : ℝ) < 0 ∧
    (oneHot 1 1 = List.replicate 1 0 ∧ binLabel (-1) = binLabel 0) :=
  ⟨Or.inr (by norm_num), by norm_num,
    C2_out_of_domain_silent 1 1 (Or.inr (by norm_num)) (-1) (by norm_num)⟩

/-- Modelled from the spec: the loss phase with the region factor
explicitly substituted by the constant `1`, so that `preds = ρ * d` with no
baseline scaling; everything else (per-cell BCE with the hard-coded
`eps = 1e-8`, per-cell KL, the broadcast total) is as in the code.  This is
the comparison point of the region-factor-disablement claim. -/
def lossWithUnitF (x px : List (List ℝ)) (d : List ℝ)
    (qzLoc qzScale : List (List ℝ)) (kl_weight : ℝ) : LossRecorder :=
  let rl := List.zipWith3
    (fun pc dc xc =>
      (List.zipWith (bceTerm 1e-8) (pc.map (fun pi => pi * dc)) (xc.map binLabel)).sum)
    px d x
  let kl := List.zipWith klCell qzLoc qzScale
  { loss := (kl.map (fun k => rl.sum + kl_weight * k)).sum
    reconstruction_loss := rl
    kl_local := kl }

/-- Multiplying elementwise by an all-ones region factor of the right
length is multiplying by `d` alone. -/
lemma predsList_replicate_one : ∀ (pc : List ℝ) (dc : ℝ),
    predsList pc dc (List.replicate pc.length 1) = pc.map (fun pi => pi * dc) := by
  intro pc dc
  unfold predsList
  induction pc with
  | nil => rfl
  | cons a t ih =>
    simp only [List.length_cons, List.replicate_succ, List.zipWith_cons_cons, mul_one,
      List.map_cons]
    rw [ih]

/-- Per-cell reconstruction loss with the all-ones factor. -/
lemma recon_unit_f (n : ℕ) (pc : List ℝ) (dc : ℝ) (xc : List ℝ) (hn : pc.length = n) :
    get_reconstruction_loss pc dc (List.replicate n 1) xc
      = (List.zipWith (bceTerm 1e-8) (pc.map (fun pi => pi * dc)) (xc.map binLabel)).sum := by
  subst hn
  unfold get_reconstruction_loss
  rw [predsList_replicate_one]

/-- Congruence for `zipWith3` under a predicate on the first list. -/
lemma zipWith3_congr_mem {α β γ δ : Type} (F G : α → β → γ → δ) (pr : α → Prop) :
    ∀ (as : List α) (bs : List β) (cs : List γ),
      (∀ a ∈ as, pr a) → (∀ a b c, pr a → F a b c = G a b c) →
      List.zipWith3 F as bs cs = List.zipWith3 G as bs cs := by
  intro as
  induction as with
  | nil => intro bs cs _ _; cases bs <;> cases cs <;> rfl
  | cons a t ih =>
    intro bs cs hmem hfg
    cases bs with
    | nil => rfl
    | cons b bt =>
      cases cs with
      | nil => rfl
      | cons c ct =>
        simp only [List.zipWith3]
        rw [hfg a b c (hmem a (by simp)),
          ih bt ct (fun q hq => hmem q (by simp [hq])) hfg]

/-- **C6.** With region factors disabled, `setup` stores no `rf` parameter,
the factor used by the loss phase is the constant `1` for every region, and
the loss result is numerically identical to the loss with `f` explicitly
substituted by `1` (`preds = ρ * d`), whenever each cell's `ρ` row has the
configured `n_input` length. -/
theorem C6_region_factors_disabled (cfg : Config) (P : Params) (hrf : P.rf = none)
    (x px : List (List ℝ)) (d : List ℝ) (qzLoc qzScale : List (List ℝ)) (w : ℝ)
    (hlen : ∀ pc ∈ px, pc.length = cfg.n_input) :
    (∀ c : Config, c.region_factors = false → (JaxPEAKVAE.setup c).rf = none) ∧
    regionFactor cfg P.rf = List.replicate cfg.n_input 1 ∧
    JaxPEAKVAE.loss cfg P x px d qzLoc qzScale w = lossWithUnitF x px d qzLoc qzScale w := by
  refine ⟨fun c hc => by simp [JaxPEAKVAE.setup, hc], by rw [hrf]; rfl, ?_⟩
  have hrl : List.zipWith3
      (fun pc dc xc => get_reconstruction_loss pc dc (regionFactor cfg P.rf) xc) px d x
      = List.zipWith3
        (fun pc dc xc =>
          (List.zipWith (bceTerm 1e-8) (pc.map (fun pi => pi * dc)) (xc.map binLabel)).sum)
        px d x := by
    apply zipWith3_congr_mem _ _ (fun pc => pc.length = cfg.n_input) px d x hlen
    intro pc dc xc hpc
    rw [hrf]
    show get_reconstruction_loss pc dc (List.replicate cfg.n_input 1) xc = _
    exact recon_unit_f cfg.n_input pc dc xc hpc
  simp only [JaxPEAKVAE.loss, lossWithUnitF, hrl]

/-- Witness for C6 at a concrete one-cell batch. -/
theorem C6_region_factors_disabled_witness :
    (Pzero.rf = none) ∧ (∀ pc ∈ [[(1 : ℝ) / 2]], pc.length = cfg1.n_input) ∧
    ((∀ c : Config, c.region_factors = false → (JaxPEAKVAE.setup c).rf = none) ∧
     regionFactor cfg1 Pzero.rf = List.replicate cfg1.n_input 1 ∧
     JaxPEAKVAE.loss cfg1 Pzero [[1]] [[(1 : ℝ) / 2]] [1] [[0]] [[1]] 1
       = lossWithUnitF [[1]] [[(1 : ℝ) / 2]] [1] [[0]] [[1]] 1) :=
  ⟨rfl, by simp [cfg1],
    C6_region_factors_disabled cfg1 Pzero rfl [[1]] [[(1 : ℝ) / 2]] [1] [[0]] [[1]] 1
      (by simp [cfg1])⟩

end ScviPeakVAE

end
